import Mathlib

/-!
Verification of the prompt-templating and retrieval-orchestration core of the
`obsidian-local-gpt` plugin.

JavaScript strings are modelled as `List Char`.  Each definition is a direct
translation of a function from the TypeScript source; the file and line of the
source are given in the doc comment of every definition.  JavaScript numeric
values that are integers throughout the relevant code are modelled as `Nat`
or `Int`; the token-estimation arithmetic (`Math.ceil` of a product with a
decimal constant) is modelled with exact integer ceiling division.
-/

set_option maxRecDepth 10000

/-- `leadsWith pat s` is true when `pat` is a prefix of `s`
(character-by-character comparison, as a JS engine matches a literal). -/
def leadsWith : List Char → List Char → Bool
  | [], _ => true
  | _ :: _, [] => false
  | p :: ps, c :: cs => p == c && leadsWith ps cs

/-- `hasSub s pat` models JavaScript `s.includes(pat)`. -/
def hasSub : List Char → List Char → Bool
  | [], pat => pat.isEmpty
  | s@(_ :: t), pat => leadsWith pat s || hasSub t pat

/-- Index of the first occurrence of `pat` in `s`, if any
(the scan underlying JavaScript `s.indexOf(pat)`). -/
def idxOfSub : List Char → List Char → Option Nat
  | [], pat => if pat.isEmpty then some 0 else none
  | s@(_ :: t), pat => if leadsWith pat s then some 0 else (idxOfSub t pat).map (· + 1)

/-- JavaScript `s.indexOf(pat)`: the index of the first occurrence, `-1` if none. -/
def jsIndexOf (s pat : List Char) : Int :=
  match idxOfSub s pat with
  | some i => (i : Int)
  | none => -1

/-- JavaScript `s.replace(pat, repl)` with a *string* pattern: replaces only the
first occurrence of `pat`; `s` is returned unchanged when `pat` does not occur.
(The model does not interpret `$`-escapes in `repl`; no input used in this file
contains `$`.) -/
def replaceFirst : List Char → List Char → List Char → List Char
  | [], pat, repl => if pat.isEmpty then repl else []
  | s@(c :: t), pat, repl =>
    if leadsWith pat s then repl ++ s.drop pat.length else c :: replaceFirst t pat repl

/-- Whitespace for JavaScript `String.prototype.trim`
(ASCII whitespace plus NBSP, BOM and the Unicode line separators). -/
def isJsWhitespace (c : Char) : Bool :=
  c == ' ' || c == '\t' || c == '\n' || c == '\x0d' || c == '\x0b' || c == '\x0c' ||
  c == '\u00A0' || c == '\uFEFF' || c == '\u2028' || c == '\u2029'

/-- JavaScript `s.trim()`. -/
def jsTrim (s : List Char) : List Char :=
  ((s.dropWhile isJsWhitespace).reverse.dropWhile isJsWhitespace).reverse

/-- JavaScript `s.substring(a, b)`: clamps both arguments into `[0, s.length]`
and swaps them when `a > b`. -/
def jsSubstring (s : List Char) (a b : Int) : List Char :=
  let n : Int := s.length
  let a' := (min (max a 0) n).toNat
  let b' := (min (max b 0) n).toNat
  (s.take (max a' b')).drop (min a' b')

/-- JavaScript `s.substring(a)` (one-argument form). -/
def jsSubstringFrom (s : List Char) (a : Int) : List Char :=
  s.drop ((min (max a 0) (s.length : Int)).toNat)

/-- Keyword `{{=SELECTION=}}` (imported from `defaultSettings`; the literal is
the bit-exact form given by the external-interface table of the spec and the
project README). -/
def SELECTION_KEYWORD : List Char := "\x7b\x7b=SELECTION=\x7d\x7d".data

/-- Keyword `{{=CONTEXT=}}`. -/
def CONTEXT_KEYWORD : List Char := "\x7b\x7b=CONTEXT=\x7d\x7d".data

/-- Keyword `{{=CONTEXT_START=}}`. -/
def CONTEXT_CONDITION_START : List Char := "\x7b\x7b=CONTEXT_START=\x7d\x7d".data

/-- Keyword `{{=CONTEXT_END=}}`. -/
def CONTEXT_CONDITION_END : List Char := "\x7b\x7b=CONTEXT_END=\x7d\x7d".data

/-- Keyword `{{=CURRENT_TIME=}}`. -/
def CURRENT_TIME_KEYWORD : List Char := "\x7b\x7b=CURRENT_TIME=\x7d\x7d".data

/-- Keyword `{{=SHOW_MODEL_INFO=}}`. -/
def SHOW_MODEL_INFO_KEYWORD : List Char := "\x7b\x7b=SHOW_MODEL_INFO=\x7d\x7d".data

/-- Keyword `{{=SHOW_PERFORMANCE=}}`. -/
def SHOW_PERFORMANCE_KEYWORD : List Char := "\x7b\x7b=SHOW_PERFORMANCE=\x7d\x7d".data

/-- Modelled from the spec: the all-tags marker.  `defaultSettings.ts` is not in
the source tree and the spec gives no bit-exact literal for the tag markers,
only that they are distinct recognized markers; the chosen literal follows the
naming convention of the other markers.  No theorem below depends on its exact
characters. -/
def ALL_TAGS_KEYWORD : List Char := "\x7b\x7b=ALL_TAGS=\x7d\x7d".data

/-- Modelled from the spec: the current-file-tags marker (same remark as
`ALL_TAGS_KEYWORD`). -/
def CURRENT_TAGS_KEYWORD : List Char := "\x7b\x7b=CURRENT_TAGS=\x7d\x7d".data

/-- Result record of a prompt processor (`ProcessResult`,
`src/core/ServiceContainer.ts` lines 220-224).  `none` models `undefined`. -/
structure ProcessResult where
  prompt : List Char
  showModelInfo : Option Bool
  showPerformance : Option Bool
deriving DecidableEq, Repr

namespace BasicVariableProcessor

/-- `[prompt, x].filter(Boolean).join("\n\n")`: empty strings are dropped before
joining with a blank line. -/
def joinBlank (a b : List Char) : List Char :=
  if a.isEmpty then b
  else if b.isEmpty then a
  else a ++ ('\n' :: '\n' :: b)

/-- The SELECTION block of `BasicVariableProcessor.process`
(`src/core/ServiceContainer.ts` lines 255-259): replace the first occurrence of
the marker, or append the selection after a blank line. -/
def selectionStep (prompt selectedText : List Char) : List Char :=
  if hasSub prompt SELECTION_KEYWORD then
    replaceFirst prompt SELECTION_KEYWORD selectedText
  else
    joinBlank prompt selectedText

/-- The CONTEXT block of `BasicVariableProcessor.process` (lines 261-269). -/
def contextStep (prompt contextText : List Char) : List Char :=
  if hasSub prompt CONTEXT_KEYWORD then
    replaceFirst prompt CONTEXT_KEYWORD contextText
  else
    if (jsTrim contextText).isEmpty then prompt
    else joinBlank prompt ("Context:\n".data ++ contextText)

/-- The conditional-block logic of `BasicVariableProcessor.process`
(lines 271-290): `start = indexOf(START) - 1`, `end = indexOf(END)`; when
`start ≠ -1 ∧ end ≠ -1 ∧ start < end`, the text strictly between the markers is
kept (or dropped when the trimmed context is empty) and one character adjacent
to each marker is consumed. -/
def conditionStep (prompt contextText : List Char) : List Char :=
  if hasSub prompt CONTEXT_CONDITION_START && hasSub prompt CONTEXT_CONDITION_END then
    let start : Int := jsIndexOf prompt CONTEXT_CONDITION_START - 1
    let stop : Int := jsIndexOf prompt CONTEXT_CONDITION_END
    if start ≠ -1 ∧ stop ≠ -1 ∧ start < stop then
      let contextBlock :=
        jsSubstring prompt (start + (CONTEXT_CONDITION_START.length : Int) + 1) stop
      let contextBlock' := if (jsTrim contextText).isEmpty then [] else contextBlock
      jsSubstring prompt 0 start ++ contextBlock' ++
        jsSubstringFrom prompt (stop + (CONTEXT_CONDITION_END.length : Int) + 1)
    else prompt
  else prompt

/-- `BasicVariableProcessor.process` (lines 252-293): selection substitution,
then context substitution, then the conditional block. -/
def process (prompt selectedText contextText : List Char) : List Char :=
  conditionStep (contextStep (selectionStep prompt selectedText) contextText) contextText

end BasicVariableProcessor

/-- `"=true"`. -/
def trueLit : List Char := "=true".data

/-- `"=false"`. -/
def falseLit : List Char := "=false".data

/-- `boolLit v` is `"=true"` or `"=false"`. -/
def boolLit (v : Bool) : List Char := if v then trueLit else falseLit

namespace ControlParameterProcessor

/-- One left-to-right pass of the global regex `keyword=(true|false)` over `s`,
as performed by `s.match(re)` / `s.replace(re, "")` in
`ControlParameterProcessor.process` (`src/core/ServiceContainer.ts` lines
341-353): every non-overlapping match found while scanning the *original*
string is removed, and the boolean of the first match is recorded.  `fuel` is
an upper bound on the number of scan steps; callers pass `s.length + 1`, which
is always sufficient. -/
def scanCtl (k : List Char) : Nat → List Char → List Char × Option Bool
  | 0, s => (s, none)
  | _ + 1, [] => ([], none)
  | fuel + 1, s@(c :: t) =>
    if leadsWith (k ++ trueLit) s then
      let r := scanCtl k fuel (s.drop (k.length + trueLit.length))
      (r.1, some true)
    else if leadsWith (k ++ falseLit) s then
      let r := scanCtl k fuel (s.drop (k.length + falseLit.length))
      (r.1, some false)
    else
      let r := scanCtl k fuel t
      (c :: r.1, r.2)

/-- `scanCtl` with enough fuel for the whole string. -/
def runScan (k s : List Char) : List Char × Option Bool :=
  scanCtl k (s.length + 1) s

/-- `ControlParameterProcessor.process` (lines 336-361): handle the
SHOW_MODEL_INFO marker on the incoming prompt, then the SHOW_PERFORMANCE
marker on the already-rewritten prompt; a marker whose `includes` test fails
leaves the flag `undefined`. -/
def process (prompt : List Char) : ProcessResult :=
  let mi := if hasSub prompt SHOW_MODEL_INFO_KEYWORD
            then runScan SHOW_MODEL_INFO_KEYWORD prompt
            else (prompt, none)
  let sp := if hasSub mi.1 SHOW_PERFORMANCE_KEYWORD
            then runScan SHOW_PERFORMANCE_KEYWORD mi.1
            else (mi.1, none)
  ⟨sp.1, mi.2, sp.2⟩

end ControlParameterProcessor

namespace TimeVariableProcessor

/-- `TimeVariableProcessor.process` (`src/core/ServiceContainer.ts` lines
306-323).  The formatted local timestamp read from the clock is an input
`now` of the model; the code substitutes it for the first occurrence of the
marker (string-pattern `replace`). -/
def process (prompt now : List Char) : List Char :=
  if hasSub prompt CURRENT_TIME_KEYWORD then
    replaceFirst prompt CURRENT_TIME_KEYWORD now
  else prompt

end TimeVariableProcessor

/-- JavaScript `s.replace(re, repl)` for a global regex whose pattern is the
literal `pat`: one left-to-right scan of `s` replacing every non-overlapping
occurrence.  `fuel` bounds the scan; callers pass `s.length + 1`. -/
def replaceAllAux (pat repl : List Char) : Nat → List Char → List Char
  | 0, s => s
  | _ + 1, [] => []
  | fuel + 1, s@(c :: t) =>
    if leadsWith pat s then repl ++ replaceAllAux pat repl fuel (s.drop pat.length)
    else c :: replaceAllAux pat repl fuel t

/-- `replaceAllAux` with sufficient fuel (all markers are non-empty). -/
def replaceAll (s pat repl : List Char) : List Char :=
  if pat.isEmpty then s else replaceAllAux pat repl (s.length + 1) s

namespace TagVariableProcessor

/-- The `currentTagsVar` computation of `TagVariableProcessor.process`
(`src/core/ServiceContainer.ts` lines 391-399).  `currentTags` is the tag list
returned by the `getFileTagsArray` collaborator for the current file (`none`
when there is no current file). -/
def currentTagsText (currentTags : Option (List (List Char))) : List Char :=
  match currentTags with
  | none => "当前文档没有标签".data
  | some tags =>
    if tags.isEmpty then "当前文档没有标签".data
    else "当前标签: ".data ++ List.intercalate ", ".data tags

/-- `TagVariableProcessor.process` (lines 374-408).  `allTagsVar` is the string
produced by the asynchronous `generateTagTemplateVariable` collaborator.
When no `app` handle is available the prompt is returned unchanged. -/
def process (prompt : List Char) (hasApp : Bool) (allTagsVar : List Char)
    (currentTags : Option (List (List Char))) : List Char :=
  if !hasApp then prompt
  else
    let p1 := if hasSub prompt ALL_TAGS_KEYWORD
              then replaceAll prompt ALL_TAGS_KEYWORD allTagsVar
              else prompt
    if hasSub p1 CURRENT_TAGS_KEYWORD
    then replaceAll p1 CURRENT_TAGS_KEYWORD (currentTagsText currentTags)
    else p1

end TagVariableProcessor

namespace PromptProcessor

/-- `PromptProcessor.processSync` (`src/core/ServiceContainer.ts` lines
439-467): run the synchronous processors in registration order — control
parameters, basic substitution, time — each guarded by its `canProcess`
check, merging a returned `ProcessResult` wholesale (object spread), then trim
the prompt.  The `BasicVariableProcessor` always processes; the
`TagVariableProcessor` is asynchronous and is skipped here. -/
def processSync (prompt selectedText contextText now : List Char) : ProcessResult :=
  let r0 : ProcessResult := ⟨prompt, none, none⟩
  let r1 := if hasSub r0.prompt SHOW_MODEL_INFO_KEYWORD ||
               hasSub r0.prompt SHOW_PERFORMANCE_KEYWORD
            then ControlParameterProcessor.process r0.prompt
            else r0
  let r2 : ProcessResult :=
    { r1 with prompt := BasicVariableProcessor.process r1.prompt selectedText contextText }
  let r3 : ProcessResult :=
    { r2 with prompt := if hasSub r2.prompt CURRENT_TIME_KEYWORD
                        then TimeVariableProcessor.process r2.prompt now
                        else r2.prompt }
  { r3 with prompt := jsTrim r3.prompt }

/-- `PromptProcessor.process` (lines 470-501): the synchronous pass, then the
asynchronous `TagVariableProcessor` guarded by its `canProcess` check, then a
final trim.  String-valued processor results leave the flags untouched. -/
def processFull (prompt selectedText contextText now : List Char) (hasApp : Bool)
    (allTagsVar : List Char) (currentTags : Option (List (List Char))) : ProcessResult :=
  let r := processSync prompt selectedText contextText now
  let p := if hasSub r.prompt ALL_TAGS_KEYWORD || hasSub r.prompt CURRENT_TAGS_KEYWORD
           then TagVariableProcessor.process r.prompt hasApp allTagsVar currentTags
           else r.prompt
  { r with prompt := jsTrim p }

end PromptProcessor

/-- The merge rule stated by the spec for the two display flags: the scopes are
consulted in priority order and the first one that is not `undefined` wins,
falling back to the global default.  (Spec-side definition, compared with the
code in the theorem for the display-option claim.) -/
def specFirstNonUndefined : List (Option Bool) → Bool → Bool
  | [], dflt => dflt
  | none :: rest, dflt => specFirstNonUndefined rest dflt
  | some b :: _, _ => b

namespace ActionExecutor

/-- `ActionExecutor.getDisplayOptions` (`src/core/ActionExecutor.ts` lines
233-268): resolve the user prompt and (when present) the system prompt each
through `preparePrompt` with empty selection and context — with an `app`
handle, so through the full pipeline — and combine each flag with the nested
conditionals `system !== undefined ? system : prompt !== undefined ? prompt :
default`.  A falsy `action.system` contributes `undefined` flags. -/
def getDisplayOptions (actionPrompt : List Char) (actionSystem : Option (List Char))
    (defaultShowModelInfo defaultShowPerformance : Bool)
    (now allTagsVar : List Char) (currentTags : Option (List (List Char))) :
    Bool × Bool :=
  let promptOptions :=
    PromptProcessor.processFull actionPrompt [] [] now true allTagsVar currentTags
  let systemOptions : Option Bool × Option Bool :=
    match actionSystem with
    | some s =>
      let r := PromptProcessor.processFull s [] [] now true allTagsVar currentTags
      (r.showModelInfo, r.showPerformance)
    | none => (none, none)
  let showModelInfo :=
    match systemOptions.1 with
    | some b => b
    | none =>
      match promptOptions.showModelInfo with
      | some b => b
      | none => defaultShowModelInfo
  let showPerformance :=
    match systemOptions.2 with
    | some b => b
    | none =>
      match promptOptions.showPerformance with
      | some b => b
      | none => defaultShowPerformance
  (showModelInfo, showPerformance)

end ActionExecutor

/-- Outcome of a fallible collaborator call (`startProcessing`,
`createVectorStore`, `queryVectorStore`): a value, or a thrown error carrying
its message. -/
inductive StepR (α : Type) where
  | ok (a : α)
  | err (msg : List Char)
deriving DecidableEq, Repr

/-- Observable side effects of `ContextEnhancer.enhanceWithContext`: progress
initialization, status-bar hiding, the embedding-backed vector-store build and
query (the only calls that reach the embedding collaborator), and error
reporting (`new Notice` in `handleError`). -/
inductive RagEvent where
  | initProgress
  | hideStatus
  | buildStore
  | queryStore
  | reportError (msg : List Char)
deriving DecidableEq, Repr

/-- Inputs and collaborator behaviour for one `enhanceWithContext` call.  The
abort flags are the values of `abortController.signal.aborted` at each point
where the code samples it, in execution order; `abortAtCatch` is its value
when `handleError` runs. -/
structure EnhanceIO where
  /-- `activeFile` (its path); `none` models `null`. -/
  activeFile : Option (List Char)
  /-- presence of the embedding provider (`aiProvider`); `none` models `undefined`. -/
  aiProvider : Option Unit
  /-- result of the `getLinkedFiles` collaborator for `selectedText`. -/
  linkedFiles : List (List Char)
  /-- signal state at the check at the top of the `try` block (line 604). -/
  abortAtStart : Bool
  /-- signal state at the check inside `processLinkedDocuments` (line 653). -/
  abortAtProcess : Bool
  /-- outcome of the `startProcessing` collaborator: the processed documents. -/
  processedDocs : StepR (List (List Char))
  /-- signal state at the entry check of `createAndQueryVectorStore` (line 678). -/
  abortAtQueryEntry : Bool
  /-- outcome of the `createVectorStore` collaborator (embedding of all chunks). -/
  buildResult : StepR Unit
  /-- signal state at the check after `createVectorStore` (line 695). -/
  abortAfterBuild : Bool
  /-- outcome of the `queryVectorStore` collaborator: the ranked context. -/
  queryResult : StepR (List Char)
  /-- signal state when `handleError` inspects it (line 715). -/
  abortAtCatch : Bool
deriving DecidableEq, Repr

namespace ContextEnhancer

/-- The error message built by `ContextEnhancer.handleError`
(`src/core/ActionExecutor.ts` line 721). -/
def errMsgOf (msg : List Char) : List Char :=
  "Error processing related documents: ".data ++ msg ++
    ". Continuing with original text.".data

/-- Events emitted by `ContextEnhancer.handleError` (lines 712-723): hide the
status bar, and report unless the signal is already aborted. -/
def handleErrorEvents (msg : List Char) (abortedNow : Bool) : List RagEvent :=
  RagEvent.hideStatus :: (if abortedNow then [] else [RagEvent.reportError (errMsgOf msg)])

/-- `ContextEnhancer.enhanceWithContext` (`src/core/ActionExecutor.ts` lines
575-643) together with its helpers `processLinkedDocuments` (648-665) and
`createAndQueryVectorStore` (670-707), modelled as a pure function from the
call's inputs and collaborator outcomes to the returned context string and the
ordered list of emitted side effects. -/
def enhanceWithContext (io : EnhanceIO) : List Char × List RagEvent :=
  if io.activeFile.isNone || io.aiProvider.isNone then ([], [])
  else if io.linkedFiles.isEmpty then ([], [])
  else if io.abortAtStart then ([], [])
  else
    let ev0 : List RagEvent := [RagEvent.initProgress]
    let docsR : StepR (List (List Char)) :=
      if io.abortAtProcess then StepR.ok [] else io.processedDocs
    match docsR with
    | StepR.err e => ([], ev0 ++ handleErrorEvents e io.abortAtCatch)
    | StepR.ok docs =>
      if docs.isEmpty then ([], ev0 ++ [RagEvent.hideStatus])
      else if io.abortAtQueryEntry then
        ([], ev0 ++ [RagEvent.hideStatus, RagEvent.hideStatus])
      else
        match io.buildResult with
        | StepR.err e =>
          ([], ev0 ++ [RagEvent.buildStore] ++ handleErrorEvents e io.abortAtCatch)
        | StepR.ok _ =>
          if io.abortAfterBuild then
            ([], ev0 ++ [RagEvent.buildStore, RagEvent.hideStatus, RagEvent.hideStatus])
          else
            match io.queryResult with
            | StepR.err e =>
              ([], ev0 ++ [RagEvent.buildStore, RagEvent.queryStore] ++
                    handleErrorEvents e io.abortAtCatch)
            | StepR.ok ctx =>
              let evs := ev0 ++ [RagEvent.buildStore, RagEvent.queryStore, RagEvent.hideStatus]
              if (jsTrim ctx).isEmpty then ([], evs) else (ctx, evs)

/-- The error, if any, thrown inside the `try` block of `enhanceWithContext`
on a given run (the first failing collaborator actually reached). -/
def thrownError (io : EnhanceIO) : Option (List Char) :=
  if io.activeFile.isNone || io.aiProvider.isNone then none
  else if io.linkedFiles.isEmpty then none
  else if io.abortAtStart then none
  else
    match (if io.abortAtProcess then StepR.ok [] else io.processedDocs) with
    | StepR.err e => some e
    | StepR.ok docs =>
      if docs.isEmpty then none
      else if io.abortAtQueryEntry then none
      else
        match io.buildResult with
        | StepR.err e => some e
        | StepR.ok _ =>
          if io.abortAfterBuild then none
          else
            match io.queryResult with
            | StepR.err e => some e
            | StepR.ok _ => none

/-- Monotonicity of the abort signal: once `aborted` is observed `true`, every
later sample is `true` as well (an `AbortController` signal never resets). -/
def abortMono (io : EnhanceIO) : Prop :=
  (io.abortAtStart = true → io.abortAtProcess = true) ∧
  (io.abortAtProcess = true → io.abortAtQueryEntry = true) ∧
  (io.abortAtQueryEntry = true → io.abortAfterBuild = true) ∧
  (io.abortAfterBuild = true → io.abortAtCatch = true)

end ContextEnhancer

namespace StatusBarManager

/-- Mutable progress fields of `StatusBarManager`
(`src/ui/StatusBarManager.ts`): step counters plus the percentage computed by
`updateProgressBar`.  (The 300 ms display animation towards
`targetPercentage` is presentation timing and is not modelled; the reported
progress is the computed target percentage.) -/
structure SBState where
  totalProgressSteps : Nat
  completedProgressSteps : Nat
  targetPercentage : Nat
deriving DecidableEq, Repr

/-- `updateProgressBar` (lines 53-69): `Math.round((completed / total) * 100)`
when `total > 0`, else `0`.  For nonnegative operands
`Math.round(x) = ⌊x + 1/2⌋`, so the value is `⌊(200c + t) / 2t⌋`. -/
def newTargetPercentage (total completed : Nat) : Nat :=
  if total = 0 then 0 else (200 * completed + total) / (2 * total)

/-- The two public mutating calls, with nonnegative step counts. -/
inductive SBEvent where
  | addTotal (n : Nat)
  | complete (n : Nat)
deriving DecidableEq, Repr

/-- `addTotalProgressSteps` (lines 41-44) and `updateCompletedSteps`
(lines 47-50): add to the corresponding counter, then recompute the target
percentage via `updateProgressBar`. -/
def sbStep (s : SBState) : SBEvent → SBState
  | SBEvent.addTotal n =>
    let total := s.totalProgressSteps + n
    ⟨total, s.completedProgressSteps,
      newTargetPercentage total s.completedProgressSteps⟩
  | SBEvent.complete n =>
    let completed := s.completedProgressSteps + n
    ⟨s.totalProgressSteps, completed,
      newTargetPercentage s.totalProgressSteps completed⟩

/-- State after `initializeProgress` (lines 31-38). -/
def sbInit : SBState := ⟨0, 0, 0⟩

/-- The state reached by a sequence of calls made after `initializeProgress`. -/
def sbRun (evs : List SBEvent) : SBState := evs.foldl sbStep sbInit

end StatusBarManager

/-- `Math.ceil(a / b)` for an integer `a` (possibly negative) and positive
integer `b`; all `Math.ceil(x * rate)` computations of `estimateTokens` are
instances with the rate written as a fraction. -/
def ceilDivInt (a b : Int) : Int := (a + b - 1) / b

/-- Characters matched by the `/[一-鿿]/g` pattern of
`estimateTokens` (`src/utils/tokenUtils.ts` line 23). -/
def isCJK (c : Char) : Bool := 0x4e00 ≤ c.toNat && c.toNat ≤ 0x9fff

/-- Characters matched by the `/[*_~`#\[\]()]/g` markdown pattern (line 26). -/
def isMarkdownChar (c : Char) : Bool := "*_~`#[]()".data.contains c

/-- Triple backtick fence. -/
def fence : List Char := "```".data

/-- Index of the first position of `s` at which a ``` fence starts. -/
def findFence : List Char → Option Nat
  | [] => none
  | s@(_ :: t) => if leadsWith fence s then some 0 else (findFence t).map (· + 1)

/-- One left-to-right scan of the lazy global pattern `` /```[\s\S]*?```/g ``
(line 24): returns the concatenation of all matches and the string with the
matches removed.  At a position opening a fence, the match extends to the
nearest later fence; with no closing fence the scan moves on by one character.
`fuel` bounds the scan; callers pass `s.length + 1`. -/
def cbScanAux : Nat → List Char → List Char × List Char
  | 0, s => ([], s)
  | _ + 1, [] => ([], [])
  | fuel + 1, s@(c :: t) =>
    if leadsWith fence s then
      match findFence (s.drop 3) with
      | some j =>
        let inner := (s.drop 3).take j
        let rest := (s.drop 3).drop (j + 3)
        let r := cbScanAux fuel rest
        (fence ++ inner ++ fence ++ r.1, r.2)
      | none =>
        let r := cbScanAux fuel t
        (r.1, c :: r.2)
    else
      let r := cbScanAux fuel t
      (r.1, c :: r.2)

/-- `cbScanAux` with sufficient fuel. -/
def cbScan (s : List Char) : List Char × List Char := cbScanAux (s.length + 1) s

/-- Closing part of an inline-code match: after an opening backtick, the
pattern `` /`[^`]+`/ `` needs at least one non-backtick character and then a
closing backtick. -/
def tickSplit (s : List Char) : Option (List Char × List Char) :=
  let inner := s.takeWhile (fun c => !(c == '`'))
  if inner.isEmpty then none
  else if inner.length = s.length then none
  else some (inner, s.drop (inner.length + 1))

/-- One left-to-right scan of the global pattern `` /`[^`]+`/g `` (line 25):
concatenation of all matches, and the string with the matches removed. -/
def inlineScanAux : Nat → List Char → List Char × List Char
  | 0, s => ([], s)
  | _ + 1, [] => ([], [])
  | fuel + 1, c :: t =>
    if c == '`' then
      match tickSplit t with
      | some (inner, rest) =>
        let r := inlineScanAux fuel rest
        ('`' :: inner ++ '`' :: r.1, r.2)
      | none =>
        let r := inlineScanAux fuel t
        (r.1, c :: r.2)
    else
      let r := inlineScanAux fuel t
      (r.1, c :: r.2)

/-- `inlineScanAux` with sufficient fuel. -/
def inlineScan (s : List Char) : List Char × List Char := inlineScanAux (s.length + 1) s

/-- `estimateTokens` (`src/utils/tokenUtils.ts` lines 14-57).  The source
computes with JS doubles; the model uses exact integer ceiling division with
the same rates (0.7 = 7/10, 0.25 = 1/4, 0.285 = 57/200, 0.1 = 1/10,
1.2 = 6/5).  `englishChars` can be negative (Chinese characters inside code
are counted in `chineseChars` but removed from `textWithoutCode`), hence the
`Int`-valued ceiling division, which like `Math.ceil` rounds towards zero for
negative quotients. -/
def estimateTokens (text : List Char) (isInput : Bool) : Int :=
  if text.isEmpty then 0
  else
    let chineseChars : Int := (text.countP (fun c => isCJK c)) 
    let codeBlocks := (cbScan text).1
    let inlineCode := (inlineScan text).1
    let markdownChars : Int := (text.countP (fun c => isMarkdownChar c))
    let textWithoutCode := (inlineScan (cbScan text).2).2
    let englishChars : Int := (textWithoutCode.length : Int) - chineseChars
    let chineseTokens := ceilDivInt (7 * chineseChars) 10
    let englishTokens := ceilDivInt englishChars 4
    let codeTokens := ceilDivInt (57 * ((codeBlocks.length : Int) + (inlineCode.length : Int))) 200
    let markdownTokens := ceilDivInt markdownChars 10
    let totalTokens :=
      ceilDivInt (6 * (chineseTokens + englishTokens + codeTokens + markdownTokens)) 5
    if isInput then max (totalTokens + 60) 15 else max totalTokens 1

/-- The pair of display flags obtained by resolving one prompt scope
independently through the full pipeline (with empty selection and context), as
`getDisplayOptions` does for each scope; an absent scope contributes
`undefined` flags. -/
def scopeFlags (tmpl : Option (List Char)) (now allTagsVar : List Char)
    (currentTags : Option (List (List Char))) : Option Bool × Option Bool :=
  match tmpl with
  | none => (none, none)
  | some s =>
    let r := PromptProcessor.processFull s [] [] now true allTagsVar currentTags
    (r.showModelInfo, r.showPerformance)

/-- The resolution result stated by the spec for templates without recognized
markers: the template, a blank line and the selection when non-empty, a blank
line and a labeled `Context:` block when the trimmed context is non-empty,
with surrounding whitespace trimmed.  (Spec-side definition, compared with the
pipeline in the theorem for the marker-free-template claim.) -/
def specResolveNoMarkers (t sel ctx : List Char) : List Char :=
  jsTrim (t ++ (if sel.isEmpty then [] else '\n' :: '\n' :: sel) ++
    (if (jsTrim ctx).isEmpty then []
     else '\n' :: '\n' :: ("Context:\n".data ++ ctx)))

/-! ### General lemmas about the string model -/

theorem hasSub_nil_pat (s : List Char) : hasSub s [] = true := by
  cases s <;> simp [hasSub, leadsWith, List.isEmpty]

theorem leadsWith_iff (p : List Char) : ∀ s, leadsWith p s = true ↔ ∃ q, s = p ++ q := by
  induction p with
  | nil => intro s; simp [leadsWith]
  | cons a p ih =>
    intro s
    cases s with
    | nil => simp [leadsWith]
    | cons c t =>
      simp only [leadsWith, Bool.and_eq_true, beq_iff_eq, ih t, List.cons_append,
        List.cons.injEq]
      constructor
      · rintro ⟨rfl, q, rfl⟩; exact ⟨q, rfl, rfl⟩
      · rintro ⟨q, rfl, rfl⟩; exact ⟨rfl, q, rfl⟩

theorem leadsWith_append_self (p q : List Char) : leadsWith p (p ++ q) = true :=
  (leadsWith_iff p (p ++ q)).mpr ⟨q, rfl⟩

theorem leadsWith_of_append {a b s : List Char} (h : leadsWith (a ++ b) s = true) :
    leadsWith a s = true := by
  rcases (leadsWith_iff (a ++ b) s).mp h with ⟨q, rfl⟩
  rw [List.append_assoc]
  exact leadsWith_append_self a (b ++ q)

theorem leadsWith_append_cancel (k a s : List Char) :
    leadsWith (k ++ a) (k ++ s) = leadsWith a s := by
  induction k with
  | nil => rfl
  | cons c k ih => simp [leadsWith, ih]

theorem leadsWith_drop_eq {p s : List Char} (h : leadsWith p s = true) :
    s = p ++ s.drop p.length := by
  rcases (leadsWith_iff p s).mp h with ⟨q, rfl⟩
  simp

theorem leadsWith_append_left {m : List Char} :
    ∀ {x y : List Char}, leadsWith m (x ++ y) = true → m.length ≤ x.length →
      leadsWith m x = true := by
  induction m with
  | nil => intro x y _ _; rfl
  | cons a m ih =>
    intro x y h hl
    cases x with
    | nil => simp at hl
    | cons c t =>
      simp only [List.cons_append, leadsWith, Bool.and_eq_true] at h ⊢
      exact ⟨h.1, ih h.2 (by simpa using hl)⟩

theorem leadsWith_cross {m : List Char} :
    ∀ {x y : List Char}, leadsWith m (x ++ y) = true → x.length < m.length →
      ∃ c, y.head? = some c ∧ c ∈ m := by
  induction m with
  | nil => intro x y _ h; simp at h
  | cons a m ih =>
    intro x y h hl
    cases x with
    | nil =>
      cases y with
      | nil => simp [leadsWith] at h
      | cons c t =>
        simp only [List.nil_append, leadsWith, Bool.and_eq_true, beq_iff_eq] at h
        exact ⟨c, rfl, by simp [h.1]⟩
    | cons c t =>
      simp only [List.cons_append, leadsWith, Bool.and_eq_true] at h
      rcases ih h.2 (by simpa using hl) with ⟨c', hc', hmem⟩
      exact ⟨c', hc', by simp [hmem]⟩

theorem hasSub_iff (s pat : List Char) :
    hasSub s pat = true ↔ ∃ a b, s = a ++ pat ++ b := by
  induction s with
  | nil =>
    simp only [hasSub, List.isEmpty_iff]
    constructor
    · rintro rfl; exact ⟨[], [], rfl⟩
    · rintro ⟨a, b, h⟩
      rcases List.append_eq_nil.mp h.symm with ⟨h1, h2⟩
      exact (List.append_eq_nil.mp h1).2
  | cons c t ih =>
    simp only [hasSub, Bool.or_eq_true, leadsWith_iff, ih]
    constructor
    · rintro (⟨q, hq⟩ | ⟨a, b, hb⟩)
      · exact ⟨[], q, by simpa using hq⟩
      · exact ⟨c :: a, b, by simp [hb]⟩
    · rintro ⟨a, b, h⟩
      cases a with
      | nil => exact Or.inl ⟨b, by simpa using h⟩
      | cons a0 a' =>
        simp only [List.cons_append, List.cons.injEq] at h
        exact Or.inr ⟨a', b, h.2⟩

theorem hasSub_of_parts {s a b pat : List Char} (h : s = a ++ pat ++ b) :
    hasSub s pat = true := (hasSub_iff s pat).mpr ⟨a, b, h⟩

theorem hasSub_prefix_of_append {s k x : List Char} (h : hasSub s (k ++ x) = true) :
    hasSub s k = true := by
  rcases (hasSub_iff s (k ++ x)).mp h with ⟨a, b, rfl⟩
  exact (hasSub_iff _ k).mpr ⟨a, x ++ b, by simp⟩

theorem hasSub_split {m : List Char} :
    ∀ {x y : List Char}, hasSub (x ++ y) m = true →
      hasSub y m = true ∨
        ∃ x1 x2, x = x1 ++ x2 ∧ x2 ≠ [] ∧ leadsWith m (x2 ++ y) = true := by
  intro x
  induction x with
  | nil => intro y h; exact Or.inl (by simpa using h)
  | cons c t ih =>
    intro y h
    simp only [List.cons_append, hasSub, Bool.or_eq_true] at h
    rcases h with h | h
    · exact Or.inr ⟨[], c :: t, rfl, by simp, by simpa using h⟩
    · rcases ih h with h | ⟨x1, x2, rfl, hne, hl⟩
      · exact Or.inl h
      · exact Or.inr ⟨c :: x1, x2, rfl, hne, hl⟩

theorem hasSub_eq_false_iff (s pat : List Char) :
    hasSub s pat = false ↔ ∀ i, leadsWith pat (s.drop i) = false := by
  induction s with
  | nil =>
    cases pat with
    | nil => simp [hasSub, leadsWith, List.isEmpty]
    | cons a p => simp [hasSub, leadsWith, List.isEmpty]
  | cons c t ih =>
    simp only [hasSub, Bool.or_eq_false_iff, ih]
    constructor
    · rintro ⟨h0, h⟩ i
      cases i with
      | zero => exact h0
      | succ j => exact h j
    · intro h
      exact ⟨h 0, fun i => h (i + 1)⟩

theorem hasSub_append_nlhead {x y m : List Char} (hm : '\n' ∉ m)
    (hy0 : y.head? = some '\n') (hx : hasSub x m = false) (hy : hasSub y m = false) :
    hasSub (x ++ y) m = false := by
  by_contra h
  rcases hasSub_split (Bool.not_eq_false _ ▸ h) with h' | ⟨x1, x2, rfl, hne, hl⟩
  · rw [hy] at h'; exact Bool.false_ne_true h'
  · by_cases hlen : m.length ≤ x2.length
    · have hx2 : leadsWith m x2 = true := leadsWith_append_left hl hlen
      rcases (leadsWith_iff m x2).mp hx2 with ⟨q, rfl⟩
      have : hasSub (x1 ++ (m ++ q)) m = true :=
        (hasSub_iff _ m).mpr ⟨x1, q, by simp⟩
      rw [hx] at this; exact Bool.false_ne_true this
    · rcases leadsWith_cross hl (by omega) with ⟨c, hc, hcm⟩
      rw [hy0] at hc
      exact hm (Option.some.inj hc ▸ hcm)

theorem hasSub_cons_ne {c : Char} {m : List Char} (h : m.head? ≠ some c) (s : List Char) :
    hasSub (c :: s) m = hasSub s m := by
  cases m with
  | nil => simp [hasSub_nil_pat]
  | cons a p =>
    have hac : (a == c) = false := by
      simp only [List.head?] at h
      simp only [beq_eq_false_iff_ne, ne_eq]
      intro hEq; exact h (by rw [hEq])
    simp [hasSub, leadsWith, hac]

theorem hasSub_append_left_ne {m : List Char} :
    ∀ (pre : List Char), (∀ c ∈ pre, m.head? ≠ some c) → ∀ z,
      hasSub (pre ++ z) m = hasSub z m := by
  intro pre
  induction pre with
  | nil => intro _ z; rfl
  | cons c t ih =>
    intro h z
    rw [List.cons_append, hasSub_cons_ne (h c (by simp)), ih (fun c' hc' => h c' (by simp [hc']))]

theorem idxOfSub_some_drop {s pat : List Char} {n : Nat} (h : idxOfSub s pat = some n) :
    leadsWith pat (s.drop n) = true := by
  induction s generalizing n with
  | nil =>
    simp only [idxOfSub] at h
    split at h
    · rename_i he
      injection h with h'
      subst h'
      simp [List.isEmpty_iff.mp he, leadsWith]
    · cases h
  | cons c t ih =>
    simp only [idxOfSub] at h
    split at h
    · rename_i hl
      injection h with h'
      subst h'
      simpa using hl
    · rcases Option.map_eq_some'.mp h with ⟨j, hj, rfl⟩
      simpa using ih hj

theorem idxOfSub_some_min {s pat : List Char} {n : Nat} (h : idxOfSub s pat = some n) :
    ∀ i, i < n → leadsWith pat (s.drop i) = false := by
  induction s generalizing n with
  | nil =>
    simp only [idxOfSub] at h
    split at h
    · injection h with h'
      subst h'
      intro i hi
      omega
    · cases h
  | cons c t ih =>
    simp only [idxOfSub] at h
    split at h
    · injection h with h'
      subst h'
      intro i hi
      omega
    · rename_i hcond
      rcases Option.map_eq_some'.mp h with ⟨j, hj, rfl⟩
      intro i hi
      cases i with
      | zero =>
        simp only [Bool.not_eq_true] at hcond
        simpa using hcond
      | succ i' => simpa using ih hj i' (by omega)

theorem idxOfSub_hasSub {s pat : List Char} {n : Nat} (h : idxOfSub s pat = some n) :
    hasSub s pat = true := by
  have h1 := idxOfSub_some_drop h
  rcases (leadsWith_iff pat (s.drop n)).mp h1 with ⟨q, hq⟩
  exact hasSub_of_parts (by rw [← List.take_append_drop n s, hq, List.append_assoc])

theorem replaceFirst_decomp {pat : List Char} (repl : List Char) :
    ∀ {s : List Char}, hasSub s pat = true →
      ∃ a b, s = a ++ pat ++ b ∧ replaceFirst s pat repl = a ++ repl ++ b ∧
        ∀ i, i < a.length → leadsWith pat (s.drop i) = false := by
  intro s
  induction s with
  | nil =>
    intro h
    simp only [hasSub, List.isEmpty_iff] at h
    exact ⟨[], [], by simp [h], by simp [replaceFirst, h], by simp⟩
  | cons c t ih =>
    intro h
    by_cases hl : leadsWith pat (c :: t) = true
    · refine ⟨[], (c :: t).drop pat.length, ?_, ?_, by simp⟩
      · simpa using leadsWith_drop_eq hl
      · simp [replaceFirst, hl]
    · have ht : hasSub t pat = true := by
        simp only [hasSub, Bool.or_eq_true] at h
        rcases h with h | h
        · exact absurd h hl
        · exact h
      rcases ih ht with ⟨a, b, rfl, hrepl, hmin⟩
      refine ⟨c :: a, b, rfl, ?_, ?_⟩
      · simp only [replaceFirst]
        rw [if_neg (by simpa using hl), hrepl]
        simp
      · intro i hi
        cases i with
        | zero =>
          simp only [Bool.not_eq_true] at hl
          simpa [List.append_assoc] using hl
        | succ j => simpa [List.append_assoc] using hmin j (by simpa using hi)

/-! ### C1: SELECTION substitution -/

/-- C1 (counterexample): the claim says resolution replaces **every** occurrence
of the SELECTION marker.  For the template `"A {{=SELECTION=}} B
{{=SELECTION=}}"` with selection `"X"`, the resolved prompt is
`"A X B {{=SELECTION=}}"`: only the first occurrence is replaced and the
marker still occurs in the output, refuting the claim. -/
theorem C1_counterexample :
    (PromptProcessor.processSync
        ("A \x7b\x7b=SELECTION=\x7d\x7d B \x7b\x7b=SELECTION=\x7d\x7d".data)
        ("X".data) [] []).prompt = ("A X B \x7b\x7b=SELECTION=\x7d\x7d".data) ∧
    hasSub (PromptProcessor.processSync
        ("A \x7b\x7b=SELECTION=\x7d\x7d B \x7b\x7b=SELECTION=\x7d\x7d".data)
        ("X".data) [] []).prompt SELECTION_KEYWORD = true := by decide

/-- C1 (amended): for every template containing the SELECTION marker, the
selection substitution of prompt resolution replaces exactly the **first**
occurrence of the marker with `selectedText` and leaves the rest of the
template — including any later occurrences of the marker — verbatim: the
template splits as `a ++ marker ++ b` with no occurrence starting before `a`'s
end, and the step returns `a ++ selectedText ++ b`. -/
theorem C1_selection_first_only (t sel : List Char)
    (h : hasSub t SELECTION_KEYWORD = true) :
    ∃ a b, t = a ++ SELECTION_KEYWORD ++ b ∧
      BasicVariableProcessor.selectionStep t sel = a ++ sel ++ b ∧
      ∀ i, i < a.length → leadsWith SELECTION_KEYWORD (t.drop i) = false := by
  have hd := replaceFirst_decomp (s := t) sel h
  simpa [BasicVariableProcessor.selectionStep, h] using hd

/-- Witness for `C1_selection_first_only` at a concrete template. -/
theorem C1_witness :
    hasSub ("P \x7b\x7b=SELECTION=\x7d\x7d Q".data) SELECTION_KEYWORD = true ∧
    ∃ a b, ("P \x7b\x7b=SELECTION=\x7d\x7d Q".data) = a ++ SELECTION_KEYWORD ++ b ∧
      BasicVariableProcessor.selectionStep ("P \x7b\x7b=SELECTION=\x7d\x7d Q".data)
          ("S".data) = a ++ ("S".data) ++ b ∧
      ∀ i, i < a.length →
        leadsWith SELECTION_KEYWORD (("P \x7b\x7b=SELECTION=\x7d\x7d Q".data).drop i) = false :=
  ⟨by decide, C1_selection_first_only _ _ (by decide)⟩

/-! ### C2: conditional CONTEXT_START/CONTEXT_END block -/

/-- `jsSubstring s 0 b` for `b` within bounds is a `take`. -/
theorem jsSubstring_zero_le (s : List Char) (b : Int) (_hb : 0 ≤ b)
    (hb2 : b ≤ s.length) : jsSubstring s 0 b = s.take b.toNat := by
  simp only [jsSubstring]
  have h1 : (min (max (0 : Int) 0) (s.length : Int)).toNat = 0 := by omega
  have h2 : (min (max b 0) (s.length : Int)).toNat = b.toNat := by omega
  rw [h1, h2]
  simp

/-- `jsSubstring s a b` for `0 ≤ a ≤ b ≤ s.length` is a `take` then `drop`. -/
theorem jsSubstring_mid (s : List Char) (a b : Int) (_h0 : 0 ≤ a) (hab : a ≤ b)
    (hb : b ≤ s.length) : jsSubstring s a b = (s.take b.toNat).drop a.toNat := by
  simp only [jsSubstring]
  have h1 : (min (max a 0) (s.length : Int)).toNat = a.toNat := by omega
  have h2 : (min (max b 0) (s.length : Int)).toNat = b.toNat := by omega
  rw [h1, h2]
  have h3 : min a.toNat b.toNat = a.toNat := by omega
  have h4 : max a.toNat b.toNat = b.toNat := by omega
  rw [h3, h4]

/-- `jsSubstring s a` (one-argument form) for `0 ≤ a` is a `drop`. -/
theorem jsSubstringFrom_nonneg (s : List Char) (a : Int) (h0 : 0 ≤ a) :
    jsSubstringFrom s a = s.drop a.toNat := by
  simp only [jsSubstringFrom]
  by_cases h : a ≤ (s.length : Int)
  · have : (min (max a 0) (s.length : Int)).toNat = a.toNat := by omega
    rw [this]
  · have h1 : (min (max a 0) (s.length : Int)).toNat = s.length := by omega
    rw [h1, List.drop_length, List.drop_eq_nil_of_le]
    omega

/-- C2 (counterexample): the claim says that whenever both conditional markers
occur with the first start preceding the first end and the context is empty,
the whole delimited span collapses to the empty string.  For the template that
*begins* with `{{=CONTEXT_START=}}` the code computes `start = 0 - 1 = -1`,
the guard `start !== -1` fails, and the template is returned unchanged — the
span does not collapse. -/
theorem C2_counterexample :
    (PromptProcessor.processSync
        ("\x7b\x7b=CONTEXT_START=\x7d\x7dabc\x7b\x7b=CONTEXT_END=\x7d\x7d".data)
        [] [] []).prompt =
      ("\x7b\x7b=CONTEXT_START=\x7d\x7dabc\x7b\x7b=CONTEXT_END=\x7d\x7d".data) ∧
    ("\x7b\x7b=CONTEXT_START=\x7d\x7dabc\x7b\x7b=CONTEXT_END=\x7d\x7d".data) ≠
      ([] : List Char) := by decide

/-- C2 (amended): for a prompt of the form `a ++ START ++ inner ++ END ++ b`
in which the shown occurrences are the *first* occurrences of the two
conditional markers and **at least one character precedes the first start
marker**, the conditional step keeps the inner content (or drops it when the
trimmed context is empty or whitespace-only), removes both markers, consumes
one character adjacent to each marker (the last character of `a` and the first
character of `b`), and leaves the surrounding text otherwise unchanged; only
this first pair is processed. -/
theorem C2_conditional_block (a inner b ctx : List Char)
    (h1 : idxOfSub (a ++ CONTEXT_CONDITION_START ++ inner ++ CONTEXT_CONDITION_END ++ b)
            CONTEXT_CONDITION_START = some a.length)
    (h2 : idxOfSub (a ++ CONTEXT_CONDITION_START ++ inner ++ CONTEXT_CONDITION_END ++ b)
            CONTEXT_CONDITION_END =
          some (a.length + CONTEXT_CONDITION_START.length + inner.length))
    (h3 : 1 ≤ a.length) :
    BasicVariableProcessor.conditionStep
        (a ++ CONTEXT_CONDITION_START ++ inner ++ CONTEXT_CONDITION_END ++ b) ctx =
      a.dropLast ++ (if (jsTrim ctx).isEmpty then [] else inner) ++ b.drop 1 := by
  set t := a ++ CONTEXT_CONDITION_START ++ inner ++ CONTEXT_CONDITION_END ++ b with ht
  have hS : hasSub t CONTEXT_CONDITION_START = true := idxOfSub_hasSub h1
  have hE : hasSub t CONTEXT_CONDITION_END = true := idxOfSub_hasSub h2
  have hlenS : CONTEXT_CONDITION_START.length = 19 := by decide
  have hlenE : CONTEXT_CONDITION_END.length = 17 := by decide
  have hlt : t.length = a.length + CONTEXT_CONDITION_START.length + inner.length +
      CONTEXT_CONDITION_END.length + b.length := by
    simp [ht, List.length_append]
    omega
  have hidxS : jsIndexOf t CONTEXT_CONDITION_START = (a.length : Int) := by
    simp [jsIndexOf, h1]
  have hidxE : jsIndexOf t CONTEXT_CONDITION_END =
      ((a.length + CONTEXT_CONDITION_START.length + inner.length : Nat) : Int) := by
    simp [jsIndexOf, h2]
  have e1 : jsSubstring t
      ((a.length : Int) - 1 + (CONTEXT_CONDITION_START.length : Int) + 1)
      ((a.length + CONTEXT_CONDITION_START.length + inner.length : Nat) : Int) = inner := by
    rw [jsSubstring_mid t _ _ (by omega) (by push_cast; omega)
      (by rw [hlt]; push_cast; omega)]
    have hx : (((a.length + CONTEXT_CONDITION_START.length + inner.length : Nat) : Int)).toNat
        = a.length + CONTEXT_CONDITION_START.length + inner.length := by omega
    have hy : (((a.length : Int) - 1 + (CONTEXT_CONDITION_START.length : Int) + 1)).toNat
        = a.length + CONTEXT_CONDITION_START.length := by omega
    rw [hx, hy]
    have hshape : t = (a ++ CONTEXT_CONDITION_START ++ inner) ++
        (CONTEXT_CONDITION_END ++ b) := by simp [ht, List.append_assoc]
    rw [hshape, List.take_left' (by simp [List.length_append]; omega)]
    have hshape2 : a ++ CONTEXT_CONDITION_START ++ inner =
        (a ++ CONTEXT_CONDITION_START) ++ inner := rfl
    rw [hshape2, List.drop_left' (by simp [List.length_append])]
  have e3 : jsSubstring t 0 ((a.length : Int) - 1) = a.dropLast := by
    rw [jsSubstring_zero_le t _ (by omega) (by rw [hlt]; push_cast; omega)]
    have hn : ((a.length : Int) - 1).toNat = a.length - 1 := by omega
    have hshape : t = a ++ (CONTEXT_CONDITION_START ++ (inner ++
        (CONTEXT_CONDITION_END ++ b))) := by simp [ht, List.append_assoc]
    rw [hn, hshape, List.take_append_eq_append_take]
    have hz : a.length - 1 - a.length = 0 := by omega
    rw [hz, List.take_zero, List.append_nil, List.dropLast_eq_take]
  have e4 : jsSubstringFrom t
      (((a.length + CONTEXT_CONDITION_START.length + inner.length : Nat) : Int) +
        (CONTEXT_CONDITION_END.length : Int) + 1) = b.drop 1 := by
    rw [jsSubstringFrom_nonneg t _ (by omega)]
    have hshape : t = (a ++ CONTEXT_CONDITION_START ++ inner ++ CONTEXT_CONDITION_END)
        ++ b := by simp [ht, List.append_assoc]
    have harg : ((((a.length + CONTEXT_CONDITION_START.length + inner.length : Nat) : Int)) +
        (CONTEXT_CONDITION_END.length : Int) + 1).toNat =
        (a ++ CONTEXT_CONDITION_START ++ inner ++ CONTEXT_CONDITION_END).length + 1 := by
      simp [List.length_append]
      omega
    rw [harg, hshape, List.drop_append_eq_append_drop]
    have hlen2 : (a ++ CONTEXT_CONDITION_START ++ inner ++ CONTEXT_CONDITION_END).length + 1
        - (a ++ CONTEXT_CONDITION_START ++ inner ++ CONTEXT_CONDITION_END).length = 1 := by
      omega
    rw [hlen2, List.drop_eq_nil_of_le (by omega), List.nil_append]
  simp only [BasicVariableProcessor.conditionStep, hS, hE, Bool.and_self, if_true,
    hidxS, hidxE]
  rw [if_pos ?hc]
  case hc =>
    refine ⟨by omega, by push_cast; omega, by push_cast; omega⟩
  rw [e1, e3, e4]

/-- Witness for `C2_conditional_block` at a concrete prompt. -/
theorem C2_witness :
    idxOfSub (("A:".data) ++ CONTEXT_CONDITION_START ++ ("INNER".data) ++
        CONTEXT_CONDITION_END ++ (".Z".data)) CONTEXT_CONDITION_START =
      some ("A:".data).length ∧
    BasicVariableProcessor.conditionStep
        (("A:".data) ++ CONTEXT_CONDITION_START ++ ("INNER".data) ++
          CONTEXT_CONDITION_END ++ (".Z".data)) ("c".data) =
      ("A:".data).dropLast ++
        (if (jsTrim ("c".data)).isEmpty then [] else ("INNER".data)) ++
        (".Z".data).drop 1 :=
  ⟨by decide, C2_conditional_block ("A:".data) ("INNER".data) (".Z".data) ("c".data)
    (by decide) (by decide) (by decide)⟩

/-! ### C3 and C8: control markers -/

theorem scanCtl_no_match {k : List Char} :
    ∀ (fuel : Nat) (s : List Char),
      hasSub s (k ++ trueLit) = false → hasSub s (k ++ falseLit) = false →
      ControlParameterProcessor.scanCtl k fuel s = (s, none) := by
  intro fuel
  induction fuel with
  | zero => intro s _ _; rfl
  | succ f ih =>
    intro s hT hF
    cases s with
    | nil => rfl
    | cons c t =>
      have h0T : leadsWith (k ++ trueLit) (c :: t) = false :=
        ((hasSub_eq_false_iff _ _).mp hT) 0
      have h0F : leadsWith (k ++ falseLit) (c :: t) = false :=
        ((hasSub_eq_false_iff _ _).mp hF) 0
      have htT : hasSub t (k ++ trueLit) = false := by
        rw [hasSub_eq_false_iff]
        intro i
        exact ((hasSub_eq_false_iff _ _).mp hT) (i + 1)
      have htF : hasSub t (k ++ falseLit) = false := by
        rw [hasSub_eq_false_iff]
        intro i
        exact ((hasSub_eq_false_iff _ _).mp hF) (i + 1)
      simp only [ControlParameterProcessor.scanCtl, h0T, h0F, Bool.false_eq_true,
        if_false, ih t htT htF]

theorem leadsWith_trueLit_of_falseLit (k q : List Char) :
    leadsWith (k ++ trueLit) (k ++ falseLit ++ q) = false := by
  rw [List.append_assoc, leadsWith_append_cancel]
  rfl

theorem scanCtl_strip {k : List Char} (hk : k ≠ []) :
    ∀ (p : List Char) (fuel : Nat) (v : Bool) (q : List Char),
      (∀ i, i < p.length → leadsWith k ((p ++ k ++ boolLit v ++ q).drop i) = false) →
      hasSub q (k ++ trueLit) = false → hasSub q (k ++ falseLit) = false →
      p.length + 1 ≤ fuel →
      ControlParameterProcessor.scanCtl k fuel (p ++ k ++ boolLit v ++ q) =
        (p ++ q, some v) := by
  intro p
  induction p with
  | nil =>
    intro fuel v q _ hqT hqF hfuel
    cases fuel with
    | zero => omega
    | succ f =>
      have hne : (k ++ boolLit v) ++ q ≠ [] := by
        cases k with
        | nil => exact absurd rfl hk
        | cons a k' => simp
      rcases List.exists_cons_of_ne_nil hne with ⟨c, t, hct⟩
      simp only [List.nil_append]
      rw [hct]
      cases v with
      | true =>
        have hlead : leadsWith (k ++ trueLit) (c :: t) = true := by
          rw [← hct]
          simpa [boolLit, List.append_assoc] using
            leadsWith_append_self (k ++ trueLit) q
        have hdrop : (c :: t).drop (k.length + trueLit.length) = q := by
          rw [← hct]
          have hb : (k ++ boolLit true) ++ q = (k ++ trueLit) ++ q := by
            simp [boolLit]
          rw [hb, List.drop_left' (by simp [List.length_append])]
        simp only [ControlParameterProcessor.scanCtl, hlead, if_true, hdrop,
          scanCtl_no_match f q hqT hqF]
      | false =>
        have hlead : leadsWith (k ++ trueLit) (c :: t) = false := by
          rw [← hct]
          have hb : (k ++ boolLit false) ++ q = k ++ falseLit ++ q := by
            simp [boolLit]
          rw [hb]
          exact leadsWith_trueLit_of_falseLit k q
        have hleadF : leadsWith (k ++ falseLit) (c :: t) = true := by
          rw [← hct]
          simpa [boolLit, List.append_assoc] using
            leadsWith_append_self (k ++ falseLit) q
        have hdrop : (c :: t).drop (k.length + falseLit.length) = q := by
          rw [← hct]
          have hb : (k ++ boolLit false) ++ q = (k ++ falseLit) ++ q := by
            simp [boolLit]
          rw [hb, List.drop_left' (by simp [List.length_append])]
        simp only [ControlParameterProcessor.scanCtl, hlead, hleadF, Bool.false_eq_true,
          if_false, if_true, hdrop, scanCtl_no_match f q hqT hqF]
  | cons c p' ih =>
    intro fuel v q hmin hqT hqF hfuel
    cases fuel with
    | zero => omega
    | succ f =>
      have h0 : leadsWith k (c :: (p' ++ (k ++ (boolLit v ++ q)))) = false := by
        simpa [List.append_assoc] using hmin 0 (by simp)
      have h0T : leadsWith (k ++ trueLit) (c :: (p' ++ (k ++ (boolLit v ++ q)))) = false := by
        by_contra hcon
        rw [Bool.not_eq_false] at hcon
        have hck := leadsWith_of_append hcon
        rw [hck] at h0
        cases h0
      have h0F : leadsWith (k ++ falseLit) (c :: (p' ++ (k ++ (boolLit v ++ q)))) = false := by
        by_contra hcon
        rw [Bool.not_eq_false] at hcon
        have hck := leadsWith_of_append hcon
        rw [hck] at h0
        cases h0
      have hmin' : ∀ i, i < p'.length →
          leadsWith k ((p' ++ k ++ boolLit v ++ q).drop i) = false := by
        intro i hi
        have := hmin (i + 1) (by simp; omega)
        simpa using this
      have hstep : ControlParameterProcessor.scanCtl k (f + 1)
          (c :: (p' ++ (k ++ (boolLit v ++ q)))) =
          (c :: (ControlParameterProcessor.scanCtl k f
            (p' ++ (k ++ (boolLit v ++ q)))).1,
           (ControlParameterProcessor.scanCtl k f (p' ++ (k ++ (boolLit v ++ q)))).2) := by
        simp only [ControlParameterProcessor.scanCtl, h0T, h0F, Bool.false_eq_true,
          if_false]
      have hih := ih f v q hmin' hqT hqF (by simp at hfuel; omega)
      rw [List.append_assoc, List.append_assoc] at hih
      calc ControlParameterProcessor.scanCtl k (f + 1) ((c :: p') ++ k ++ boolLit v ++ q)
          = ControlParameterProcessor.scanCtl k (f + 1)
              (c :: (p' ++ (k ++ (boolLit v ++ q)))) := by
            simp [List.append_assoc]
        _ = (c :: (ControlParameterProcessor.scanCtl k f
              (p' ++ (k ++ (boolLit v ++ q)))).1,
             (ControlParameterProcessor.scanCtl k f (p' ++ (k ++ (boolLit v ++ q)))).2) :=
            hstep
        _ = ((c :: p') ++ q, some v) := by rw [hih]; simp

theorem hasSub_append_pat_false {q k x : List Char} (h : hasSub q k = false) :
    hasSub q (k ++ x) = false := by
  by_contra hcon
  rw [Bool.not_eq_false] at hcon
  rw [hasSub_prefix_of_append hcon] at h
  cases h

theorem runScan_strip {k : List Char} (hk : k ≠ []) (p q : List Char) (v : Bool)
    (hidx : idxOfSub (p ++ k ++ boolLit v ++ q) k = some p.length)
    (hq : hasSub q k = false) :
    ControlParameterProcessor.runScan k (p ++ k ++ boolLit v ++ q) = (p ++ q, some v) := by
  refine scanCtl_strip hk p _ v q (fun i hi => idxOfSub_some_min hidx i hi)
    (hasSub_append_pat_false hq) (hasSub_append_pat_false hq) ?_
  simp only [List.length_append]
  omega

/-- C3 (counterexample): the claim says that whenever a control marker occurs
with an explicit `=true`/`=false` value, the marker-plus-value substring never
appears in the resolved prompt.  For the template consisting of
`{{=SHOW_MODEL_INFO=}}{{=SHOW_MODEL_INFO=}}=true=true`, the single-pass global
replace removes only the middle match and the removal seam splices the leading
marker together with the trailing `=true`: the output is exactly
`{{=SHOW_MODEL_INFO=}}=true`, which still contains the marker-plus-value
substring. -/
theorem C3_counterexample :
    ControlParameterProcessor.process
        (SHOW_MODEL_INFO_KEYWORD ++ SHOW_MODEL_INFO_KEYWORD ++ trueLit ++ trueLit) =
      ⟨SHOW_MODEL_INFO_KEYWORD ++ trueLit, some true, none⟩ ∧
    hasSub (ControlParameterProcessor.process
        (SHOW_MODEL_INFO_KEYWORD ++ SHOW_MODEL_INFO_KEYWORD ++ trueLit ++ trueLit)).prompt
      (SHOW_MODEL_INFO_KEYWORD ++ trueLit) = true := by decide

/-- C3 (amended): control-marker resolution removes every `marker=(true|false)`
match found in one left-to-right scan and takes the flag from the first match;
stripping is complete whenever the matched occurrence is the first occurrence
of the marker and no further occurrence follows (a removal seam can otherwise
splice together a new marker-plus-value substring, see the counterexample).
Specifically: (i) a template without the SHOW_MODEL_INFO marker resolves with
`showModelInfo = undefined`; (ii) a template without either marker is returned
unchanged with both flags `undefined` (not `false`); (iii) a template
`p ++ SHOW_MODEL_INFO ++ =v ++ q` whose shown marker occurrence is the first
and whose tail `q` contains no further marker resolves to `p ++ q` — the
marker-plus-value substring is stripped entirely — with `showModelInfo`
exactly the literal `v`; (iv) symmetrically for SHOW_PERFORMANCE. -/
theorem C3_control_marker_strip :
    (∀ t, hasSub t SHOW_MODEL_INFO_KEYWORD = false →
      (ControlParameterProcessor.process t).showModelInfo = none) ∧
    (∀ t, hasSub t SHOW_MODEL_INFO_KEYWORD = false →
      hasSub t SHOW_PERFORMANCE_KEYWORD = false →
      ControlParameterProcessor.process t = ⟨t, none, none⟩) ∧
    (∀ p q v, idxOfSub (p ++ SHOW_MODEL_INFO_KEYWORD ++ boolLit v ++ q)
        SHOW_MODEL_INFO_KEYWORD = some p.length →
      hasSub q SHOW_MODEL_INFO_KEYWORD = false →
      hasSub (p ++ q) SHOW_PERFORMANCE_KEYWORD = false →
      ControlParameterProcessor.process (p ++ SHOW_MODEL_INFO_KEYWORD ++ boolLit v ++ q) =
        ⟨p ++ q, some v, none⟩) ∧
    (∀ p q v, hasSub (p ++ SHOW_PERFORMANCE_KEYWORD ++ boolLit v ++ q)
        SHOW_MODEL_INFO_KEYWORD = false →
      idxOfSub (p ++ SHOW_PERFORMANCE_KEYWORD ++ boolLit v ++ q)
        SHOW_PERFORMANCE_KEYWORD = some p.length →
      hasSub q SHOW_PERFORMANCE_KEYWORD = false →
      ControlParameterProcessor.process (p ++ SHOW_PERFORMANCE_KEYWORD ++ boolLit v ++ q) =
        ⟨p ++ q, none, some v⟩) := by
  refine ⟨?_, ?_, ?_, ?_⟩
  · intro t h
    simp [ControlParameterProcessor.process, h]
  · intro t hMI hSP
    simp [ControlParameterProcessor.process, hMI, hSP]
  · intro p q v hidx hq hSP
    have hMI : hasSub (p ++ SHOW_MODEL_INFO_KEYWORD ++ boolLit v ++ q)
        SHOW_MODEL_INFO_KEYWORD = true := idxOfSub_hasSub hidx
    have hrun := runScan_strip (k := SHOW_MODEL_INFO_KEYWORD) (by decide) p q v hidx hq
    simp only [List.append_assoc] at hMI hrun hSP
    simp [ControlParameterProcessor.process, hMI, hrun, hSP]
  · intro p q v hMI hidx hq
    have hSPt : hasSub (p ++ SHOW_PERFORMANCE_KEYWORD ++ boolLit v ++ q)
        SHOW_PERFORMANCE_KEYWORD = true := idxOfSub_hasSub hidx
    have hrun := runScan_strip (k := SHOW_PERFORMANCE_KEYWORD) (by decide) p q v hidx hq
    simp only [List.append_assoc] at hMI hSPt hrun
    simp [ControlParameterProcessor.process, hMI, hSPt, hrun]

/-- Witness for `C3_control_marker_strip` (part iii) at a concrete template. -/
theorem C3_witness :
    idxOfSub (("Do it. ".data) ++ SHOW_MODEL_INFO_KEYWORD ++ boolLit false ++ (" Now.".data))
        SHOW_MODEL_INFO_KEYWORD = some ("Do it. ".data).length ∧
    ControlParameterProcessor.process
        (("Do it. ".data) ++ SHOW_MODEL_INFO_KEYWORD ++ boolLit false ++ (" Now.".data)) =
      ⟨("Do it. ".data) ++ (" Now.".data), some false, none⟩ :=
  ⟨by decide, (C3_control_marker_strip.2.2.1) ("Do it. ".data) (" Now.".data) false
    (by decide) (by decide) (by decide)⟩

/-- C8 (counterexample): the claim says a control marker followed by any value
other than exactly `=true`/`=false` is left unresolved with an `undefined`
flag.  For the template `{{=SHOW_MODEL_INFO=}}=trueX` the value is `=trueX`,
yet the regex matches its `=true` prefix: the code strips
`{{=SHOW_MODEL_INFO=}}=true`, leaves `"X"`, and sets the flag to `true`. -/
theorem C8_counterexample :
    ControlParameterProcessor.process (SHOW_MODEL_INFO_KEYWORD ++ ("=trueX".data)) =
      ⟨"X".data, some true, none⟩ ∧
    ("X".data) ≠ SHOW_MODEL_INFO_KEYWORD ++ ("=trueX".data) := by decide

/-- C8 (amended): a control-marker occurrence is matched only when immediately
followed by `=true` or `=false`; if no occurrence of either marker in the
template has such a suffix, control-parameter resolution returns the template
completely unchanged with both flags `undefined`.  Resolution is a total
function of the template (it never throws). -/
theorem C8_malformed_control_left_unresolved (t : List Char)
    (hMT : hasSub t (SHOW_MODEL_INFO_KEYWORD ++ trueLit) = false)
    (hMF : hasSub t (SHOW_MODEL_INFO_KEYWORD ++ falseLit) = false)
    (hPT : hasSub t (SHOW_PERFORMANCE_KEYWORD ++ trueLit) = false)
    (hPF : hasSub t (SHOW_PERFORMANCE_KEYWORD ++ falseLit) = false) :
    ControlParameterProcessor.process t = ⟨t, none, none⟩ := by
  have hmi : (if hasSub t SHOW_MODEL_INFO_KEYWORD then
      ControlParameterProcessor.runScan SHOW_MODEL_INFO_KEYWORD t else (t, none)) =
      (t, none) := by
    by_cases h : hasSub t SHOW_MODEL_INFO_KEYWORD
    · simp [h, ControlParameterProcessor.runScan, scanCtl_no_match _ t hMT hMF]
    · simp [h]
  have hsp : (if hasSub t SHOW_PERFORMANCE_KEYWORD then
      ControlParameterProcessor.runScan SHOW_PERFORMANCE_KEYWORD t else (t, none)) =
      (t, none) := by
    by_cases h : hasSub t SHOW_PERFORMANCE_KEYWORD
    · simp [h, ControlParameterProcessor.runScan, scanCtl_no_match _ t hPT hPF]
    · simp [h]
  simp only [ControlParameterProcessor.process, hmi, hsp]

/-- Witness for `C8_malformed_control_left_unresolved` at a concrete template
(`{{=SHOW_MODEL_INFO=}}=maybe`). -/
theorem C8_witness :
    hasSub (SHOW_MODEL_INFO_KEYWORD ++ ("=maybe".data))
        (SHOW_MODEL_INFO_KEYWORD ++ trueLit) = false ∧
    ControlParameterProcessor.process (SHOW_MODEL_INFO_KEYWORD ++ ("=maybe".data)) =
      ⟨SHOW_MODEL_INFO_KEYWORD ++ ("=maybe".data), none, none⟩ :=
  ⟨by decide, C8_malformed_control_left_unresolved _ (by decide) (by decide) (by decide)
    (by decide)⟩

/-! ### C4: display-flag priority across scopes -/

/-- C4: for both display flags, the effective value used by action execution is
the first non-`undefined` value in the priority order system-prompt scope,
then user-prompt scope, then the global configuration default, where each
scope's flags are obtained by resolving that scope independently through the
prompt pipeline. -/
theorem C4_display_flags_priority (actionPrompt : List Char)
    (actionSystem : Option (List Char)) (dMI dSP : Bool)
    (now allTagsVar : List Char) (currentTags : Option (List (List Char))) :
    ActionExecutor.getDisplayOptions actionPrompt actionSystem dMI dSP now
        allTagsVar currentTags =
      (specFirstNonUndefined
        [(scopeFlags actionSystem now allTagsVar currentTags).1,
         (scopeFlags (some actionPrompt) now allTagsVar currentTags).1] dMI,
       specFirstNonUndefined
        [(scopeFlags actionSystem now allTagsVar currentTags).2,
         (scopeFlags (some actionPrompt) now allTagsVar currentTags).2] dSP) := by
  cases actionSystem with
  | none =>
    simp only [ActionExecutor.getDisplayOptions, scopeFlags]
    cases hp : (PromptProcessor.processFull actionPrompt [] [] now true allTagsVar
        currentTags).showModelInfo <;>
    cases hq : (PromptProcessor.processFull actionPrompt [] [] now true allTagsVar
        currentTags).showPerformance <;>
    simp [hp, hq, specFirstNonUndefined]
  | some sysT =>
    simp only [ActionExecutor.getDisplayOptions, scopeFlags]
    cases hs : (PromptProcessor.processFull sysT [] [] now true allTagsVar
        currentTags).showModelInfo <;>
    cases ht : (PromptProcessor.processFull sysT [] [] now true allTagsVar
        currentTags).showPerformance <;>
    cases hp : (PromptProcessor.processFull actionPrompt [] [] now true allTagsVar
        currentTags).showModelInfo <;>
    cases hq : (PromptProcessor.processFull actionPrompt [] [] now true allTagsVar
        currentTags).showPerformance <;>
    simp [hs, ht, hp, hq, specFirstNonUndefined]

/-! ### C5 and C6: context-enhancement error handling and fast paths -/

theorem enhance_error_report_iff (io : EnhanceIO) (e : List Char)
    (h : ContextEnhancer.thrownError io = some e) :
    (ContextEnhancer.enhanceWithContext io).1 = [] ∧
    (RagEvent.reportError (ContextEnhancer.errMsgOf e) ∈
        (ContextEnhancer.enhanceWithContext io).2 ↔ io.abortAtCatch = false) := by
  obtain ⟨af, ap, lf, a0, a1, pd, a2, br, a3, qr, ac⟩ := io
  simp only [ContextEnhancer.thrownError] at h
  simp only [ContextEnhancer.enhanceWithContext, ContextEnhancer.handleErrorEvents]
  cases hb1 : (af.isNone || ap.isNone) <;> rw [hb1] at h <;>
    simp only [if_true, if_false, Bool.false_eq_true] at h ⊢
  · cases hb2 : lf.isEmpty <;> rw [hb2] at h <;>
      simp only [if_true, if_false, Bool.false_eq_true] at h ⊢
    · cases a0 <;> simp only [if_true, if_false, Bool.false_eq_true] at h ⊢
      · cases a1 <;> simp only [if_true, if_false, Bool.false_eq_true] at h ⊢
        · cases pd with
          | err e2 =>
            obtain rfl : e2 = e := by simpa using h
            cases ac <;> simp
          | ok docs =>
            simp only [] at h ⊢
            cases hb3 : docs.isEmpty <;> rw [hb3] at h <;>
              simp only [if_true, if_false, Bool.false_eq_true] at h ⊢
            · cases a2 <;> simp only [if_true, if_false, Bool.false_eq_true] at h ⊢
              · cases br with
                | err e2 =>
                  simp only [] at h ⊢
                  obtain rfl : e2 = e := by simpa using h
                  cases ac <;> simp
                | ok u =>
                  simp only [] at h ⊢
                  cases a3 <;> simp only [if_true, if_false, Bool.false_eq_true] at h ⊢
                  · cases qr with
                    | err e2 =>
                      simp only [] at h ⊢
                      obtain rfl : e2 = e := by simpa using h
                      cases ac <;> simp
                    | ok ctx =>
                      simp at h
                  · cases h
              · cases h
            · cases h
        · simp at h
      · cases h
    · cases h
  · cases h

theorem enhance_no_report_of_catch (io : EnhanceIO) (hac : io.abortAtCatch = true)
    (m : List Char) :
    RagEvent.reportError m ∉ (ContextEnhancer.enhanceWithContext io).2 := by
  obtain ⟨af, ap, lf, a0, a1, pd, a2, br, a3, qr, ac⟩ := io
  simp only at hac
  subst hac
  simp only [ContextEnhancer.enhanceWithContext, ContextEnhancer.handleErrorEvents,
    if_true]
  cases hb1 : (af.isNone || ap.isNone) <;>
    simp only [if_true, if_false, Bool.false_eq_true]
  · cases hb2 : lf.isEmpty <;> simp only [if_true, if_false, Bool.false_eq_true]
    · cases a0 <;> simp only [if_true, if_false, Bool.false_eq_true]
      · cases a1 <;> simp only [if_true, if_false, Bool.false_eq_true]
        · cases pd with
          | err e2 => simp
          | ok docs =>
            simp only []
            cases hb3 : docs.isEmpty <;>
              simp only [if_true, if_false, Bool.false_eq_true]
            · cases a2 <;> simp only [if_true, if_false, Bool.false_eq_true]
              · cases br with
                | err e2 => simp
                | ok u =>
                  simp only []
                  cases a3 <;> simp only [if_true, if_false, Bool.false_eq_true]
                  · cases qr with
                    | err e2 => simp
                    | ok ctx =>
                      simp only []
                      cases (jsTrim ctx).isEmpty <;> simp
                  · simp
              · simp
            · simp
        · simp
      · simp
    · simp
  · simp

theorem enhance_empty_of_abort_flag (io : EnhanceIO)
    (hd : io.abortAtStart = true ∨ io.abortAtProcess = true ∨
      io.abortAtQueryEntry = true ∨ io.abortAfterBuild = true) :
    (ContextEnhancer.enhanceWithContext io).1 = [] := by
  obtain ⟨af, ap, lf, a0, a1, pd, a2, br, a3, qr, ac⟩ := io
  simp only at hd
  simp only [ContextEnhancer.enhanceWithContext, ContextEnhancer.handleErrorEvents]
  cases hb1 : (af.isNone || ap.isNone) <;>
    simp only [if_true, if_false, Bool.false_eq_true]
  · cases hb2 : lf.isEmpty <;> simp only [if_true, if_false, Bool.false_eq_true]
    · cases a0 <;> simp only [if_true, if_false, Bool.false_eq_true]
      · cases a1 <;> simp only [if_true, if_false, Bool.false_eq_true]
        · cases pd with
          | err e2 => simp
          | ok docs =>
            simp only []
            cases hb3 : docs.isEmpty <;>
              simp only [if_true, if_false, Bool.false_eq_true]
            · cases a2 <;> simp only [if_true, if_false, Bool.false_eq_true]
              · cases br with
                | err e2 => simp
                | ok u =>
                  simp only []
                  cases a3 <;> simp only [if_true, if_false, Bool.false_eq_true]
                  · cases qr with
                    | err e2 => simp
                    | ok ctx =>
                      simp only []
                      simp_all
        · simp

/-- C5: every error thrown during document processing, vector-store
construction or querying is caught by `enhanceWithContext`: the call returns
the empty string, and the error is reported (with the descriptive
`handleError` message) exactly when the abort signal is not set at handling
time; when the abort signal is set no error is ever reported, and an abort
observed at any of the four cancellation checkpoints yields empty context
with no error report (cancellation is never reported as an error). -/
theorem C5_errors_absorbed_cancellation_silent :
    (∀ io e, ContextEnhancer.thrownError io = some e →
      (ContextEnhancer.enhanceWithContext io).1 = [] ∧
      (RagEvent.reportError (ContextEnhancer.errMsgOf e) ∈
          (ContextEnhancer.enhanceWithContext io).2 ↔ io.abortAtCatch = false)) ∧
    (∀ io, io.abortAtCatch = true →
      ∀ m, RagEvent.reportError m ∉ (ContextEnhancer.enhanceWithContext io).2) ∧
    (∀ io, ContextEnhancer.abortMono io →
      io.abortAtStart = true ∨ io.abortAtProcess = true ∨
        io.abortAtQueryEntry = true ∨ io.abortAfterBuild = true →
      (ContextEnhancer.enhanceWithContext io).1 = [] ∧
      ∀ m, RagEvent.reportError m ∉ (ContextEnhancer.enhanceWithContext io).2) := by
  refine ⟨enhance_error_report_iff, enhance_no_report_of_catch, ?_⟩
  intro io hm hd
  obtain ⟨h01, h12, h23, h3c⟩ := hm
  have hac : io.abortAtCatch = true := by
    rcases hd with h | h | h | h
    · exact h3c (h23 (h12 (h01 h)))
    · exact h3c (h23 (h12 h))
    · exact h3c (h23 h)
    · exact h3c h
  exact ⟨enhance_empty_of_abort_flag io hd, enhance_no_report_of_catch io hac⟩

/-- Witness for `C5_errors_absorbed_cancellation_silent` on a run whose
vector-store build throws with the signal not aborted. -/
theorem C5_witness :
    (ContextEnhancer.enhanceWithContext
        ⟨some ("note.md".data), some (), [("a.md".data)], false, false,
          StepR.ok [("doc".data)], false, StepR.err ("boom".data), false,
          StepR.ok ("ctx".data), false⟩).1 = [] ∧
    (RagEvent.reportError (ContextEnhancer.errMsgOf ("boom".data)) ∈
        (ContextEnhancer.enhanceWithContext
          ⟨some ("note.md".data), some (), [("a.md".data)], false, false,
            StepR.ok [("doc".data)], false, StepR.err ("boom".data), false,
            StepR.ok ("ctx".data), false⟩).2 ↔
      (⟨some ("note.md".data), some (), [("a.md".data)], false, false,
          StepR.ok [("doc".data)], false, StepR.err ("boom".data), false,
          StepR.ok ("ctx".data), false⟩ : EnhanceIO).abortAtCatch = false) :=
  C5_errors_absorbed_cancellation_silent.1
    ⟨some ("note.md".data), some (), [("a.md".data)], false, false,
      StepR.ok [("doc".data)], false, StepR.err ("boom".data), false,
      StepR.ok ("ctx".data), false⟩ ("boom".data) (by decide)

/-- C6: `enhanceWithContext` returns the empty string immediately — with no
progress initialization, no status-bar activity and no embedding-collaborator
call (empty event list) — when the selected text references no linked
documents, when no embedding provider is configured, or when there is no
active file. -/
theorem C6_fast_paths (io : EnhanceIO)
    (h : io.linkedFiles = [] ∨ io.activeFile = none ∨ io.aiProvider = none) :
    ContextEnhancer.enhanceWithContext io = ([], []) := by
  rcases h with h | h | h
  · by_cases h2 : (io.activeFile.isNone || io.aiProvider.isNone) = true
    · simp [ContextEnhancer.enhanceWithContext, h2]
    · simp [ContextEnhancer.enhanceWithContext, h2, h]
  · simp [ContextEnhancer.enhanceWithContext, h]
  · simp [ContextEnhancer.enhanceWithContext, h]

/-- Witness for `C6_fast_paths`: a call whose selection references no linked
documents returns immediately with no side effects. -/
theorem C6_witness :
    ContextEnhancer.enhanceWithContext
      ⟨some ("note.md".data), some (), [], false, false, StepR.ok [], false,
        StepR.ok (), false, StepR.ok [], false⟩ = ([], []) :=
  C6_fast_paths _ (Or.inl rfl)

/-! ### C9: progress reporting -/

theorem sbRun_target_inv : ∀ (evs : List StatusBarManager.SBEvent),
    (StatusBarManager.sbRun evs).targetPercentage =
      StatusBarManager.newTargetPercentage
        (StatusBarManager.sbRun evs).totalProgressSteps
        (StatusBarManager.sbRun evs).completedProgressSteps := by
  have key : ∀ (evs : List StatusBarManager.SBEvent) (s : StatusBarManager.SBState),
      s.targetPercentage =
        StatusBarManager.newTargetPercentage s.totalProgressSteps s.completedProgressSteps →
      (evs.foldl StatusBarManager.sbStep s).targetPercentage =
        StatusBarManager.newTargetPercentage
          (evs.foldl StatusBarManager.sbStep s).totalProgressSteps
          (evs.foldl StatusBarManager.sbStep s).completedProgressSteps := by
    intro evs
    induction evs with
    | nil => intro s hs; exact hs
    | cons e rest ih =>
      intro s _
      apply ih
      cases e <;> rfl
  intro evs
  exact key evs StatusBarManager.sbInit (by rfl)

/-- C9 (counterexample): the claim says the reported progress never decreases
for any sequence of nonnegative `addTotalProgressSteps` / `updateCompletedSteps`
calls after initialization.  After `addTotal 1; complete 1` the target
percentage is 100; a further `addTotal 1` recomputes it as
`round(1/2 · 100) = 50`, a strict decrease. -/
theorem C9_counterexample :
    (StatusBarManager.sbRun
        [StatusBarManager.SBEvent.addTotal 1, StatusBarManager.SBEvent.complete 1,
         StatusBarManager.SBEvent.addTotal 1]).targetPercentage <
      (StatusBarManager.sbRun
        [StatusBarManager.SBEvent.addTotal 1,
         StatusBarManager.SBEvent.complete 1]).targetPercentage := by decide

/-- C9 (amended): after initialization, the completed-step and total-step
counters never decrease under any further `addTotalProgressSteps` or
`updateCompletedSteps` call with a nonnegative argument, and the reported
target percentage never decreases under `updateCompletedSteps` calls; an
`addTotalProgressSteps` call arriving after completions can, however, lower
the reported percentage (see the counterexample). -/
theorem C9_progress_monotonicity :
    (∀ (evs : List StatusBarManager.SBEvent) (e : StatusBarManager.SBEvent),
      (StatusBarManager.sbRun evs).totalProgressSteps ≤
        (StatusBarManager.sbRun (evs ++ [e])).totalProgressSteps ∧
      (StatusBarManager.sbRun evs).completedProgressSteps ≤
        (StatusBarManager.sbRun (evs ++ [e])).completedProgressSteps) ∧
    (∀ (evs : List StatusBarManager.SBEvent) (n : Nat),
      (StatusBarManager.sbRun evs).targetPercentage ≤
        (StatusBarManager.sbRun
          (evs ++ [StatusBarManager.SBEvent.complete n])).targetPercentage) := by
  constructor
  · intro evs e
    simp only [StatusBarManager.sbRun, List.foldl_append]
    cases e <;> simp [StatusBarManager.sbStep]
  · intro evs n
    simp only [StatusBarManager.sbRun, List.foldl_append]
    have hrun := sbRun_target_inv evs
    rw [StatusBarManager.sbRun] at hrun
    set s := evs.foldl StatusBarManager.sbStep StatusBarManager.sbInit with hs
    simp only [List.foldl, StatusBarManager.sbStep]
    rw [hrun]
    unfold StatusBarManager.newTargetPercentage
    by_cases ht : s.totalProgressSteps = 0
    · simp [ht]
    · simp only [ht, if_false]
      apply Nat.div_le_div_right
      omega

/-! ### C10: token estimation -/

theorem cbScanAux_no_tick : ∀ (fuel : Nat) (s : List Char), '`' ∉ s →
    cbScanAux fuel s = ([], s) := by
  intro fuel
  induction fuel with
  | zero => intro s _; rfl
  | succ f ih =>
    intro s hs
    cases s with
    | nil => rfl
    | cons c t =>
      have hc : c ≠ '`' := fun hEq => hs (by simp [hEq])
      have hfence : leadsWith fence (c :: t) = false := by
        have hcb : ('`' == c) = false := by
          simp only [beq_eq_false_iff_ne, ne_eq]
          exact fun hEq => hc hEq.symm
        simp [fence, leadsWith, hcb]
      simp only [cbScanAux, hfence, Bool.false_eq_true, if_false,
        ih t (fun hm => hs (by simp [hm]))]

theorem inlineScanAux_no_tick : ∀ (fuel : Nat) (s : List Char), '`' ∉ s →
    inlineScanAux fuel s = ([], s) := by
  intro fuel
  induction fuel with
  | zero => intro s _; rfl
  | succ f ih =>
    intro s hs
    cases s with
    | nil => rfl
    | cons c t =>
      have hc : (c == '`') = false := by
        simp only [beq_eq_false_iff_ne, ne_eq]
        exact fun hEq => hs (by simp [hEq])
      simp only [inlineScanAux, hc, Bool.false_eq_true, if_false,
        ih t (fun hm => hs (by simp [hm]))]

theorem estimateTokens_nonneg (t : List Char) (b : Bool) : 0 ≤ estimateTokens t b := by
  rw [estimateTokens]
  by_cases ht : t.isEmpty
  · simp [ht]
  · simp only [ht, if_false]
    cases b <;> simp

theorem ceilDivInt_mono {a b n : Int} (hn : 0 < n) (h : a ≤ b) :
    ceilDivInt a n ≤ ceilDivInt b n :=
  Int.ediv_le_ediv hn (by omega)

/-- C10 (counterexample): the claim says extending a text never decreases the
estimated token count.  Appending a single backtick to `` `ab`xxx`a `` closes
an inline-code span, reclassifying characters between the rate buckets of the
heuristic, and the estimate drops from 6 to 5. -/
theorem C10_counterexample :
    ("`ab`xxx`a".data ++ ['`'] = "`ab`xxx`a`".data) ∧
    estimateTokens ("`ab`xxx`a".data) false = 6 ∧
    estimateTokens ("`ab`xxx`a`".data) false = 5 ∧
    estimateTokens ("`ab`xxx`a`".data) false < estimateTokens ("`ab`xxx`a".data) false := by
  decide

/-- C10 (amended): for every non-empty input text `estimateTokens` returns a
positive token count, and on texts free of backticks (where the code-span
heuristics cannot reclassify characters) the estimate is monotone under
extension; in general an extension that closes a code span can decrease the
estimate (see the counterexample). -/
theorem C10_estimate_positive_and_monotone :
    (∀ (t : List Char) (b : Bool), t ≠ [] → 1 ≤ estimateTokens t b) ∧
    (∀ (t u : List Char) (b : Bool), '`' ∉ t → '`' ∉ u →
      estimateTokens t b ≤ estimateTokens (t ++ u) b) := by
  constructor
  · intro t b ht
    rw [estimateTokens]
    simp only [List.isEmpty_iff, ht, if_false]
    cases b <;> simp
  · intro t u b ht hu
    have htu : '`' ∉ t ++ u := by
      simp only [List.mem_append]
      rintro (h | h)
      · exact ht h
      · exact hu h
    by_cases hte : t.isEmpty
    · rw [List.isEmpty_iff] at hte
      subst hte
      rw [estimateTokens]
      simp only [List.isEmpty_nil, if_true, List.nil_append]
      exact estimateTokens_nonneg u b
    · have htue : ¬ (t ++ u).isEmpty = true := by
        rw [List.isEmpty_iff]
        intro hcon
        rw [List.isEmpty_iff] at hte
        exact hte (List.append_eq_nil.mp hcon).1
      rw [estimateTokens, estimateTokens]
      simp only [cbScan, inlineScan, cbScanAux_no_tick _ t ht,
        cbScanAux_no_tick _ (t ++ u) htu, inlineScanAux_no_tick _ t ht,
        inlineScanAux_no_tick _ (t ++ u) htu]
      rw [if_neg hte, if_neg htue]
      simp only [List.length_nil, List.countP_append, List.length_append]
      have hchu : (u.countP (fun c => isCJK c)) ≤ u.length :=
        List.countP_le_length _
      have hsum :
          ceilDivInt (7 * ((t.countP (fun c => isCJK c) : Int))) 10 +
            ceilDivInt ((t.length : Int) - (t.countP (fun c => isCJK c) : Int)) 4 +
            ceilDivInt (57 * ((0 : Int) + 0)) 200 +
            ceilDivInt ((t.countP (fun c => isMarkdownChar c) : Int)) 10 ≤
          ceilDivInt (7 * (((t.countP (fun c => isCJK c) +
              u.countP (fun c => isCJK c) : Nat) : Int))) 10 +
            ceilDivInt (((t.length + u.length : Nat) : Int) -
              ((t.countP (fun c => isCJK c) + u.countP (fun c => isCJK c) : Nat) : Int)) 4 +
            ceilDivInt (57 * ((0 : Int) + 0)) 200 +
            ceilDivInt (((t.countP (fun c => isMarkdownChar c) +
              u.countP (fun c => isMarkdownChar c) : Nat) : Int)) 10 := by
        have m1 := ceilDivInt_mono (a := 7 * ((t.countP (fun c => isCJK c) : Int)))
          (b := 7 * (((t.countP (fun c => isCJK c) + u.countP (fun c => isCJK c) : Nat) : Int)))
          (n := 10) (by omega) (by push_cast; omega)
        have m2 := ceilDivInt_mono
          (a := (t.length : Int) - (t.countP (fun c => isCJK c) : Int))
          (b := ((t.length + u.length : Nat) : Int) -
            ((t.countP (fun c => isCJK c) + u.countP (fun c => isCJK c) : Nat) : Int))
          (n := 4) (by omega) (by push_cast; omega)
        have m4 := ceilDivInt_mono
          (a := ((t.countP (fun c => isMarkdownChar c) : Int)))
          (b := (((t.countP (fun c => isMarkdownChar c) +
            u.countP (fun c => isMarkdownChar c) : Nat) : Int)))
          (n := 10) (by omega) (by push_cast; omega)
        omega
      have htot := ceilDivInt_mono (n := 5) (by omega)
        (mul_le_mul_of_nonneg_left hsum (by omega : (0:Int) ≤ 6))
      cases b
      · simp only [Bool.false_eq_true, if_false]
        push_cast at htot ⊢
        exact max_le_max htot (le_refl (1 : Int))
      · simp only [if_true]
        push_cast at htot ⊢
        exact max_le_max (by omega) (le_refl (15 : Int))

/-- Witness for `C10_estimate_positive_and_monotone` at concrete texts. -/
theorem C10_witness :
    (("ab".data ≠ ([] : List Char)) ∧ 1 ≤ estimateTokens ("ab".data) false) ∧
    ('`' ∉ ("ab".data) ∧
      estimateTokens ("ab".data) false ≤ estimateTokens ("ab".data ++ "cd".data) false) :=
  ⟨⟨by decide, C10_estimate_positive_and_monotone.1 ("ab".data) false (by decide)⟩,
   ⟨by decide, C10_estimate_positive_and_monotone.2 ("ab".data) ("cd".data) false
      (by decide) (by decide)⟩⟩

/-! ### C7: marker-free templates -/

theorem hasSub_joinBlank {m t s : List Char} (hnl : '\n' ∉ m)
    (hm : m.head? ≠ some '\n') (h1 : hasSub t m = false) (h2 : hasSub s m = false) :
    hasSub (BasicVariableProcessor.joinBlank t s) m = false := by
  unfold BasicVariableProcessor.joinBlank
  by_cases hT : t.isEmpty
  · simp [hT, h2]
  · by_cases hS : s.isEmpty
    · simp [hT, hS, h1]
    · simp only [hT, hS, Bool.false_eq_true, if_false]
      refine hasSub_append_nlhead hnl rfl h1 ?_
      rw [hasSub_cons_ne hm, hasSub_cons_ne hm]
      exact h2

theorem jsTrim_cons_nl (s : List Char) : jsTrim ('\n' :: s) = jsTrim s := by
  have hws : isJsWhitespace '\n' = true := rfl
  simp [jsTrim, List.dropWhile_cons, hws]

/-- C7 (counterexample): the claim quantifies over every `selectedText`; when
the selection itself contains the CONTEXT marker, the appended selection is
re-scanned by the context substitution step and the marker is replaced by the
(empty) context, so the resolved prompt is `"T"` instead of the claimed
`"T\n\n{{=CONTEXT=}}"`. -/
theorem C7_counterexample :
    (PromptProcessor.processSync ("T".data) CONTEXT_KEYWORD [] []).prompt =
      ("T".data) ∧
    specResolveNoMarkers ("T".data) CONTEXT_KEYWORD [] ≠ ("T".data) := by decide

/-- C7 (amended): for every template, selection and context text that contain
none of the recognized markers, the synchronously resolved prompt equals the
template, followed by a blank line and the selection when the selection is
non-empty, followed by a blank line and the labeled block `"Context:\n" ++
contextText` when the trimmed context is non-empty, with surrounding
whitespace trimmed; both display flags are `undefined`.  (The claim as stated
restricts only the template: a selection or context that itself contains a
marker is re-scanned by the later pipeline steps, see the counterexample.) -/
theorem C7_no_marker_resolution (t sel ctx now : List Char)
    (hSelT : hasSub t SELECTION_KEYWORD = false)
    (hCtxT : hasSub t CONTEXT_KEYWORD = false)
    (hCsT : hasSub t CONTEXT_CONDITION_START = false)
    (_hCeT : hasSub t CONTEXT_CONDITION_END = false)
    (hTmT : hasSub t CURRENT_TIME_KEYWORD = false)
    (hMiT : hasSub t SHOW_MODEL_INFO_KEYWORD = false)
    (hSpT : hasSub t SHOW_PERFORMANCE_KEYWORD = false)
    (hCtxS : hasSub sel CONTEXT_KEYWORD = false)
    (hCsS : hasSub sel CONTEXT_CONDITION_START = false)
    (hTmS : hasSub sel CURRENT_TIME_KEYWORD = false)
    (hCsC : hasSub ctx CONTEXT_CONDITION_START = false)
    (hTmC : hasSub ctx CURRENT_TIME_KEYWORD = false) :
    PromptProcessor.processSync t sel ctx now =
      ⟨specResolveNoMarkers t sel ctx, none, none⟩ := by
  have hJ1Ctx : hasSub (BasicVariableProcessor.joinBlank t sel) CONTEXT_KEYWORD = false :=
    hasSub_joinBlank (by decide) (by decide) hCtxT hCtxS
  have hJ1Cs : hasSub (BasicVariableProcessor.joinBlank t sel)
      CONTEXT_CONDITION_START = false :=
    hasSub_joinBlank (by decide) (by decide) hCsT hCsS
  have hJ1Tm : hasSub (BasicVariableProcessor.joinBlank t sel)
      CURRENT_TIME_KEYWORD = false :=
    hasSub_joinBlank (by decide) (by decide) hTmT hTmS
  have hBlockCs : hasSub ("Context:\n".data ++ ctx) CONTEXT_CONDITION_START = false := by
    rw [hasSub_append_left_ne ("Context:\n".data) (by decide) ctx]
    exact hCsC
  have hBlockTm : hasSub ("Context:\n".data ++ ctx) CURRENT_TIME_KEYWORD = false := by
    rw [hasSub_append_left_ne ("Context:\n".data) (by decide) ctx]
    exact hTmC
  have hj2 : BasicVariableProcessor.contextStep (BasicVariableProcessor.joinBlank t sel) ctx =
      if (jsTrim ctx).isEmpty then BasicVariableProcessor.joinBlank t sel
      else BasicVariableProcessor.joinBlank (BasicVariableProcessor.joinBlank t sel)
        ("Context:\n".data ++ ctx) := by
    simp only [BasicVariableProcessor.contextStep, hJ1Ctx, Bool.false_eq_true, if_false]
  have hJ2Cs : hasSub (BasicVariableProcessor.contextStep
      (BasicVariableProcessor.joinBlank t sel) ctx) CONTEXT_CONDITION_START = false := by
    rw [hj2]
    by_cases hc : (jsTrim ctx).isEmpty
    · simp only [hc, if_true]
      exact hJ1Cs
    · simp only [hc, if_false]
      exact hasSub_joinBlank (by decide) (by decide) hJ1Cs hBlockCs
  have hJ2Tm : hasSub (BasicVariableProcessor.contextStep
      (BasicVariableProcessor.joinBlank t sel) ctx) CURRENT_TIME_KEYWORD = false := by
    rw [hj2]
    by_cases hc : (jsTrim ctx).isEmpty
    · simp only [hc, if_true]
      exact hJ1Tm
    · simp only [hc, if_false]
      exact hasSub_joinBlank (by decide) (by decide) hJ1Tm hBlockTm
  have hcond : BasicVariableProcessor.conditionStep (BasicVariableProcessor.contextStep
      (BasicVariableProcessor.joinBlank t sel) ctx) ctx =
      BasicVariableProcessor.contextStep (BasicVariableProcessor.joinBlank t sel) ctx := by
    simp only [BasicVariableProcessor.conditionStep, hJ2Cs, Bool.false_and,
      Bool.false_eq_true, if_false]
  simp only [PromptProcessor.processSync, hMiT, hSpT, Bool.or_self, Bool.false_eq_true,
    if_false, BasicVariableProcessor.process, BasicVariableProcessor.selectionStep,
    hSelT, hcond, hJ2Tm]
  refine ProcessResult.mk.injEq .. ▸ ?_
  constructor
  · rw [hj2]
    unfold specResolveNoMarkers BasicVariableProcessor.joinBlank
    by_cases hc : (jsTrim ctx).isEmpty <;> by_cases hT : t.isEmpty <;>
      by_cases hS : sel.isEmpty <;>
      simp_all [jsTrim_cons_nl, List.append_assoc, List.isEmpty_iff]
  · exact ⟨rfl, rfl⟩

/-- Witness for `C7_no_marker_resolution` at the end-to-end scenario of the
spec: the assistant template with selection `"Some example text."`. -/
theorem C7_witness :
    hasSub ("You are an assistant helping a user write more content in a document based on a prompt.".data)
        SELECTION_KEYWORD = false ∧
    PromptProcessor.processSync
        ("You are an assistant helping a user write more content in a document based on a prompt.".data)
        ("Some example text.".data) [] [] =
      ⟨specResolveNoMarkers
        ("You are an assistant helping a user write more content in a document based on a prompt.".data)
        ("Some example text.".data) [], none, none⟩ ∧
    specResolveNoMarkers
        ("You are an assistant helping a user write more content in a document based on a prompt.".data)
        ("Some example text.".data) [] =
      ("You are an assistant helping a user write more content in a document based on a prompt.\n\nSome example text.".data) :=
  ⟨by decide,
   C7_no_marker_resolution _ _ _ _ (by decide) (by decide) (by decide) (by decide)
     (by decide) (by decide) (by decide) (by decide) (by decide) (by decide)
     (by decide) (by decide),
   by decide⟩
